import Mathlib

/-!
Verification of the notebook output-mimetype negotiation and cell-splice
diffing core of the easi-ide repository.

Embedded source functions:
* `diff` (and its inner `pushSplice`) from
  `src/vs/workbench/contrib/notebook/browser/notebook.contribution.ts`;
* `mimeTypeSupportedByCore`, `getMimeTypeOrder`, `sortMimeTypes` from the
  same file (the external `glob.match` matcher, which lives in
  `vs/base/common/glob` outside the provided sources, is abstracted as a
  `matchGlob : String → String → Bool` parameter);
* `ExtHostNotebookDocument.transformMimeTypes` /
  `ExtHostNotebookController._transformMimeTypes` (their bodies are
  textually identical; one parametric definition embeds both) and
  `ExtHostNotebookDocument.eventuallyUpdateCellOutputs` from
  `src/vs/workbench/api/common/extHostNotebook.ts`.
-/

/-- A single contiguous replace-range edit over an ordered sequence
(`ISplice<T>` from `vs/base/common/sequence`): delete `deleteCount` items
at `start` and insert `toInsert` there. -/
structure Splice (α : Type) where
  start : Nat
  deleteCount : Nat
  toInsert : List α
deriving Repr, DecidableEq

/-- The inner `pushSplice` helper of `diff` (notebook.contribution.ts):
drops no-op splices and merges a pushed splice into the most recent one
when they are contiguous.  The accumulator is kept in reverse order (most
recently pushed splice first); `diff` reverses it at the end. -/
def pushSplice (result : List (Splice α)) (start deleteCount : Nat)
    (toInsert : List α) : List (Splice α) :=
  if deleteCount = 0 ∧ toInsert.length = 0 then
    result
  else
    match result with
    | latest :: rest =>
      if latest.start + latest.deleteCount = start then
        { start := latest.start, deleteCount := latest.deleteCount + deleteCount,
          toInsert := latest.toInsert ++ toInsert } :: rest
      else
        ⟨start, deleteCount, toInsert⟩ :: latest :: rest
    | [] => [⟨start, deleteCount, toInsert⟩]

/-- The main `while (true)` loop of `diff` (notebook.contribution.ts).
`beforeIdx` is the index of the head of the first list inside the original
`before` array; the two lists are the unprocessed tails of `before` and
`after`.  JavaScript `===` on elements is modelled as decidable equality
and `contains` as the caller-supplied membership predicate. -/
def diffLoop [DecidableEq α] (contains : α → Bool) :
    List α → List α → Nat → List (Splice α) → List (Splice α)
  | [], afterRest, beforeIdx, result =>
      pushSplice result beforeIdx 0 afterRest
  | b :: bs, [], beforeIdx, result =>
      pushSplice result beforeIdx (b :: bs).length []
  | b :: bs, a :: as, beforeIdx, result =>
      if b = a then
        diffLoop contains bs as (beforeIdx + 1) result
      else if contains a then
        diffLoop contains bs (a :: as) (beforeIdx + 1)
          (pushSplice result beforeIdx 1 [])
      else
        diffLoop contains (b :: bs) as beforeIdx
          (pushSplice result beforeIdx 0 [a])
termination_by bs as _ _ => bs.length + as.length
decreasing_by all_goals simp_arith

/-- `diff` from notebook.contribution.ts: heuristic single-pass two-pointer
diff of `before` against `after`. -/
def diff [DecidableEq α] (before after : List α) (contains : α → Bool) :
    List (Splice α) :=
  (diffLoop contains before after 0 []).reverse

/-- Apply a single splice to a sequence: delete `deleteCount` items at
`start` and insert `toInsert` there. -/
def applySplice (xs : List α) (s : Splice α) : List α :=
  xs.take s.start ++ s.toInsert ++ xs.drop (s.start + s.deleteCount)

/-- Apply a list of splices whose `start` indices all refer to the original
sequence: later splices are applied first, so earlier indices stay valid. -/
def applySplices (xs : List α) (splices : List (Splice α)) : List α :=
  splices.foldr (fun s cur => applySplice cur s) xs

/-- Apply a reversed accumulator of splices (most recent first), as built
by `diffLoop`. -/
def applySplicesRev (xs : List α) (result : List (Splice α)) : List α :=
  result.foldl applySplice xs

/-- The reversed accumulator is bounded by `n`: its most recent splice ends
at or before `n`, and recursively each older splice ends at or before the
start of the next younger one. -/
def boundedRev : List (Splice α) → Nat → Prop
  | [], _ => True
  | s :: rest, n => s.start + s.deleteCount ≤ n ∧ boundedRev rest s.start

example : diff ([] : List Nat) [] (fun _ => false) = [] := by
  simp [diff, diffLoop, pushSplice]

example : diff [10, 20, 30] [10, 20, 30] (fun _ => false) = [] := by
  simp [diff, diffLoop, pushSplice]

example : diff [10, 20, 30] [10, 30] (fun _ => true)
    = [⟨1, 1, []⟩] := by
  simp [diff, diffLoop, pushSplice]

example : diff [10, 20] [10, 99, 20] (fun _ => false)
    = [⟨1, 0, [99]⟩] := by
  simp [diff, diffLoop, pushSplice]

example : applySplices [10, 20, 30] [⟨1, 1, []⟩] = [10, 30] := by decide

theorem boundedRev_mono {acc : List (Splice α)} {n m : Nat}
    (h : boundedRev acc n) (hnm : n ≤ m) : boundedRev acc m := by
  cases acc with
  | nil => trivial
  | cons s rest => exact ⟨le_trans h.1 hnm, h.2⟩

theorem boundedRev_pushSplice {acc : List (Splice α)} {s : Nat} (d : Nat)
    (ins : List α) (h : boundedRev acc s) :
    boundedRev (pushSplice acc s d ins) (s + d) := by
  unfold pushSplice
  split
  · exact boundedRev_mono h (Nat.le_add_right s d)
  · cases acc with
    | nil => exact ⟨le_refl _, trivial⟩
    | cons latest rest =>
      simp only
      split
      · rename_i hcond
        refine ⟨?_, h.2⟩
        show latest.start + (latest.deleteCount + d) ≤ s + d
        omega
      · exact ⟨le_refl _, h⟩

theorem applySplice_merge (xs : List α) (s0 d0 d : Nat) (i0 ins : List α)
    (h : s0 + d0 ≤ xs.length) :
    applySplice (applySplice xs ⟨s0 + d0, d, ins⟩) ⟨s0, d0, i0⟩
      = applySplice xs ⟨s0, d0 + d, i0 ++ ins⟩ := by
  simp only [applySplice, List.append_assoc]
  have h1 : (xs.take (s0 + d0)).length = s0 + d0 := by
    simp [List.length_take, Nat.min_eq_left h]
  have htake :
      List.take s0 (xs.take (s0 + d0) ++ (ins ++ xs.drop (s0 + d0 + d)))
        = List.take s0 xs := by
    rw [List.take_append_of_le_length (by omega), List.take_take]
    congr 1
    omega
  have hdrop :
      List.drop (s0 + d0) (xs.take (s0 + d0) ++ (ins ++ xs.drop (s0 + d0 + d)))
        = ins ++ xs.drop (s0 + d0 + d) := by
    have hdl := List.drop_left (xs.take (s0 + d0)) (ins ++ xs.drop (s0 + d0 + d))
    rwa [h1] at hdl
  rw [htake, hdrop]
  have h2 : s0 + (d0 + d) = s0 + d0 + d := by omega
  rw [h2]

theorem applySplicesRev_pushSplice (xs : List α) (acc : List (Splice α))
    (s d : Nat) (ins : List α) (hs : s ≤ xs.length) (hb : boundedRev acc s) :
    applySplicesRev xs (pushSplice acc s d ins)
      = applySplicesRev (applySplice xs ⟨s, d, ins⟩) acc := by
  unfold pushSplice
  split
  · rename_i hno
    have hd : d = 0 := hno.1
    have hins : ins = [] := List.length_eq_zero.mp hno.2
    subst hd; subst hins
    have : applySplice xs ⟨s, 0, []⟩ = xs := by
      simp [applySplice]
    rw [this]
  · cases acc with
    | nil =>
      simp [applySplicesRev]
    | cons latest rest =>
      simp only
      split
      · rename_i hcond
        simp only [applySplicesRev, List.foldl_cons]
        have := applySplice_merge xs latest.start latest.deleteCount d
          latest.toInsert ins (by omega)
        rw [hcond] at this
        rw [← this]
      · simp [applySplicesRev]

theorem applySplice_insert_at (p t ins : List α) :
    applySplice (p ++ t) ⟨p.length, 0, ins⟩ = p ++ ins ++ t := by
  simp [applySplice]

theorem applySplice_flush_delete (p q t : List α) :
    applySplice (p ++ q ++ t) ⟨p.length, q.length, []⟩ = p ++ t := by
  simp only [applySplice, List.append_assoc]
  rw [List.take_left, List.drop_append, List.drop_left]
  simp

theorem applySplice_delete_one (p : List α) (b : α) (r : List α) :
    applySplice (p ++ b :: r) ⟨p.length, 1, []⟩ = p ++ r := by
  simp only [applySplice]
  rw [List.take_left, List.drop_append]
  simp

theorem diffLoop_applySplicesRev [DecidableEq α] (contains : α → Bool) :
    ∀ (n : Nat) (bs as : List α) (idx : Nat) (acc : List (Splice α))
      (p t : List α),
      bs.length + as.length ≤ n → idx = p.length → boundedRev acc idx →
      applySplicesRev (p ++ bs ++ t) (diffLoop contains bs as idx acc)
        = applySplicesRev (p ++ as ++ t) acc := by
  intro n
  induction n with
  | zero =>
    intro bs as idx acc p t hn hidx hb
    have hbs : bs = [] := List.length_eq_zero.mp (by omega)
    have has : as = [] := List.length_eq_zero.mp (by omega)
    subst hbs; subst has; subst hidx
    rw [diffLoop]
    rw [applySplicesRev_pushSplice _ _ _ _ _ (by simp) hb]
    have h0 : applySplice (p ++ [] ++ t) ⟨p.length, 0, []⟩ = p ++ [] ++ t := by
      simpa using applySplice_insert_at p t []
    rw [h0]
  | succ n ih =>
    intro bs as idx acc p t hn hidx hb
    match bs, as with
    | [], afterRest =>
      rw [diffLoop]
      subst hidx
      rw [applySplicesRev_pushSplice _ _ _ _ _ (by simp) hb]
      have h0 : applySplice (p ++ [] ++ t) ⟨p.length, 0, afterRest⟩
          = p ++ afterRest ++ t := by
        simpa using applySplice_insert_at p t afterRest
      rw [h0]
    | b :: bs', [] =>
      rw [diffLoop]
      subst hidx
      rw [applySplicesRev_pushSplice _ _ _ _ _ (by simp) hb]
      have h0 : applySplice (p ++ (b :: bs') ++ t)
          ⟨p.length, (b :: bs').length, []⟩ = p ++ [] ++ t := by
        simpa using applySplice_flush_delete p (b :: bs') t
      rw [h0]
    | b :: bs', a :: as' =>
      rw [diffLoop]
      by_cases hba : b = a
      · rw [if_pos hba]
        have ih' := ih bs' as' (idx + 1) acc (p ++ [b]) t
          (by simp at hn ⊢; omega) (by simp [hidx])
          (boundedRev_mono hb (by omega))
        have e1 : (p ++ [b]) ++ bs' ++ t = p ++ (b :: bs') ++ t := by simp
        have e2 : (p ++ [b]) ++ as' ++ t = p ++ (a :: as') ++ t := by
          subst hba; simp
        rw [e1, e2] at ih'
        exact ih'
      · rw [if_neg hba]
        by_cases hc : contains a = true
        · rw [if_pos hc]
          have ih' := ih bs' (a :: as') (idx + 1) (pushSplice acc idx 1 [])
            (p ++ [b]) t (by simp at hn ⊢; omega) (by simp [hidx])
            (by simpa using boundedRev_pushSplice 1 [] hb)
          have e1 : (p ++ [b]) ++ bs' ++ t = p ++ (b :: bs') ++ t := by simp
          rw [e1] at ih'
          rw [ih']
          rw [applySplicesRev_pushSplice _ _ _ _ _
            (by subst hidx; simp) hb]
          congr 1
          subst hidx
          have e3 : (p ++ [b]) ++ (a :: as') ++ t
              = p ++ b :: ((a :: as') ++ t) := by simp
          rw [e3, applySplice_delete_one]
          simp
        · rw [if_neg hc]
          have ih' := ih (b :: bs') as' idx (pushSplice acc idx 0 [a]) p t
            (by simp at hn ⊢; omega) hidx
            (by simpa using boundedRev_pushSplice 0 [a] hb)
          rw [ih']
          rw [applySplicesRev_pushSplice _ _ _ _ _ (by subst hidx; simp) hb]
          congr 1
          subst hidx
          have e3 : p ++ as' ++ t = p ++ (as' ++ t) := by simp
          rw [e3, applySplice_insert_at]
          simp

/-- C2: applying the splices returned by `diff` to `before` reproduces
`after`, for every before/after/contains triple. -/
theorem diff_roundTrip [DecidableEq α] (before after : List α)
    (contains : α → Bool) :
    applySplices before (diff before after contains) = after := by
  unfold diff applySplices
  rw [List.foldr_reverse]
  have h := diffLoop_applySplicesRev contains (before.length + after.length)
    before after 0 [] [] [] (le_refl _) rfl trivial
  simp only [List.nil_append, List.append_nil] at h
  simpa [applySplicesRev] using h

/-- No element of the accumulator is a no-op splice. -/
def noNoOp (acc : List (Splice α)) : Prop :=
  ∀ s ∈ acc, ¬(s.deleteCount = 0 ∧ s.toInsert = [])

/-- In the reversed accumulator each older splice ends strictly before the
start of the next younger one. -/
def chainRev (acc : List (Splice α)) : Prop :=
  List.Chain' (fun x y => y.start + y.deleteCount < x.start) acc

theorem pushSplice_chain {acc : List (Splice α)} {s : Nat} (d : Nat)
    (ins : List α) (hb : boundedRev acc s) (hc : chainRev acc)
    (hn : noNoOp acc) :
    chainRev (pushSplice acc s d ins) ∧ noNoOp (pushSplice acc s d ins) := by
  unfold pushSplice
  split
  · exact ⟨hc, hn⟩
  · rename_i hop
    cases acc with
    | nil =>
      refine ⟨List.chain'_singleton _, ?_⟩
      intro x hx
      simp at hx
      subst hx
      intro hcon
      have h1 : d = 0 := hcon.1
      have h2 : ins = [] := hcon.2
      exact hop ⟨h1, by simp [h2]⟩
    | cons latest rest =>
      simp only
      split
      · rename_i hcond
        constructor
        · cases rest with
          | nil => exact List.chain'_singleton _
          | cons r rest' =>
            rw [chainRev, List.chain'_cons]
            refine ⟨?_, (List.chain'_cons.mp hc).2⟩
            have := (List.chain'_cons.mp hc).1
            exact this
        · intro x hx
          rcases List.mem_cons.mp hx with hx | hx
          · subst hx
            intro hcon
            simp at hcon
            exact hn latest (by simp) ⟨hcon.1.1, hcon.2.1⟩
          · exact hn x (by simp [hx])
      · rename_i hcond
        constructor
        · rw [chainRev, List.chain'_cons]
          refine ⟨?_, hc⟩
          show latest.start + latest.deleteCount < s
          have hle := hb.1
          omega
        · intro x hx
          rcases List.mem_cons.mp hx with hx | hx
          · subst hx
            intro hcon
            have h1 : d = 0 := hcon.1
            have h2 : ins = [] := hcon.2
            exact hop ⟨h1, by simp [h2]⟩
          · exact hn x hx

theorem diffLoop_chain [DecidableEq α] (contains : α → Bool) :
    ∀ (n : Nat) (bs as : List α) (idx : Nat) (acc : List (Splice α)),
      bs.length + as.length ≤ n → boundedRev acc idx →
      chainRev acc → noNoOp acc →
      chainRev (diffLoop contains bs as idx acc)
        ∧ noNoOp (diffLoop contains bs as idx acc) := by
  intro n
  induction n with
  | zero =>
    intro bs as idx acc hn hb hc hno
    have hbs : bs = [] := List.length_eq_zero.mp (by omega)
    have has : as = [] := List.length_eq_zero.mp (by omega)
    subst hbs; subst has
    rw [diffLoop]
    exact pushSplice_chain 0 [] hb hc hno
  | succ n ih =>
    intro bs as idx acc hn hb hc hno
    match bs, as with
    | [], afterRest =>
      rw [diffLoop]
      exact pushSplice_chain 0 afterRest hb hc hno
    | b :: bs', [] =>
      rw [diffLoop]
      exact pushSplice_chain (b :: bs').length [] hb hc hno
    | b :: bs', a :: as' =>
      rw [diffLoop]
      by_cases hba : b = a
      · rw [if_pos hba]
        exact ih bs' as' (idx + 1) acc (by simp at hn ⊢; omega)
          (boundedRev_mono hb (by omega)) hc hno
      · rw [if_neg hba]
        by_cases hcont : contains a = true
        · rw [if_pos hcont]
          have hp := pushSplice_chain 1 [] hb hc hno
          exact ih bs' (a :: as') (idx + 1) (pushSplice acc idx 1 [])
            (by simp at hn ⊢; omega)
            (by simpa using boundedRev_pushSplice 1 [] hb) hp.1 hp.2
        · rw [if_neg hcont]
          have hp := pushSplice_chain 0 [a] hb hc hno
          exact ih (b :: bs') as' idx (pushSplice acc idx 0 [a])
            (by simp at hn ⊢; omega)
            (by simpa using boundedRev_pushSplice 0 [a] hb) hp.1 hp.2

/-- C3: the splice list returned by `diff` is emitted in non-decreasing
start order, contains no no-op splice, never has a later splice starting
exactly at the prior splice's `start + deleteCount` (contiguous splices are
merged), and both inputs empty yield the empty list. -/
theorem diff_spliceListInvariants [DecidableEq α] (before after : List α)
    (contains : α → Bool) :
    List.Chain' (fun s t => s.start ≤ t.start) (diff before after contains)
    ∧ (∀ s ∈ diff before after contains,
        ¬(s.deleteCount = 0 ∧ s.toInsert = []))
    ∧ List.Chain' (fun s t => t.start ≠ s.start + s.deleteCount)
        (diff before after contains)
    ∧ diff ([] : List α) [] contains = [] := by
  have h := diffLoop_chain contains (before.length + after.length)
    before after 0 [] (le_refl _) trivial List.chain'_nil (by intro s hs; simp at hs)
  have hstrict : List.Chain' (fun s t => s.start + s.deleteCount < t.start)
      (diff before after contains) := by
    rw [diff, List.chain'_reverse]
    exact h.1
  refine ⟨?_, ?_, ?_, ?_⟩
  · exact hstrict.imp (fun a b hab => by omega)
  · intro s hs
    exact h.2 s (by rw [diff] at hs; exact List.mem_reverse.mp hs)
  · exact hstrict.imp (fun a b hab => by omega)
  · simp [diff, diffLoop, pushSplice]

/-- `mimeTypeSupportedByCore` from notebook.contribution.ts: the fixed
allow-list of mime types the host can display without any
extension-provided renderer (`[...].indexOf(mimeType) > -1`). -/
def mimeTypeSupportedByCore (mimeType : String) : Bool :=
  [ "application/json",
    "application/javascript",
    "text/html",
    "image/svg+xml",
    "text/markdown",
    "image/png",
    "image/jpeg",
    "text/plain",
    "text/x-javascript" ].contains mimeType

/-- `getMimeTypeOrder` from notebook.contribution.ts.  The source scans the
three pattern lists in turn with one running `order` counter; a scan of one
list starting at counter value `k` is exactly `List.findIdx?` with start
index `k`.  `matchGlob` abstracts `matchGlobUniversal` (the external
`glob.match` plus the Windows slash normalization, defined outside the
provided sources). -/
def getMimeTypeOrder (matchGlob : String → String → Bool) (mimeType : String)
    (userDisplayOrder documentDisplayOrder defaultOrder : List String) : Nat :=
  match List.findIdx? (fun p => matchGlob p mimeType) userDisplayOrder 0 with
  | some order => order
  | none =>
    match List.findIdx? (fun p => matchGlob p mimeType) documentDisplayOrder
        userDisplayOrder.length with
    | some order => order
    | none =>
      match List.findIdx? (fun p => matchGlob p mimeType) defaultOrder
          (userDisplayOrder.length + documentDisplayOrder.length) with
      | some order => order
      | none =>
        userDisplayOrder.length + documentDisplayOrder.length
          + defaultOrder.length

/-- `sortMimeTypes` from notebook.contribution.ts: JavaScript's stable
`Array.prototype.sort` with comparator `order(a) - order(b)` is modelled as
a stable merge sort with the corresponding `≤` on computed orders. -/
def sortMimeTypes (matchGlob : String → String → Bool)
    (mimeTypes userDisplayOrder documentDisplayOrder defaultOrder :
      List String) : List String :=
  mimeTypes.mergeSort fun a b =>
    decide (getMimeTypeOrder matchGlob a userDisplayOrder
        documentDisplayOrder defaultOrder
      ≤ getMimeTypeOrder matchGlob b userDisplayOrder
          documentDisplayOrder defaultOrder)

/-- The rank computation exactly as worded by the spec, for comparison with
`getMimeTypeOrder`: rank is the index of the first matching pattern in
`userOrder`; otherwise the first match in `documentOrder` with ranks
continuing from `userOrder.length`; otherwise the first match in
`defaultOrder` with ranks continuing further; otherwise the combined length
of the three lists. -/
def getMimeTypeOrderSpec (matchGlob : String → String → Bool)
    (mimeType : String) (userOrder documentOrder defaultOrder : List String) :
    Nat :=
  match List.findIdx? (fun p => matchGlob p mimeType) userOrder with
  | some i => i
  | none =>
    match List.findIdx? (fun p => matchGlob p mimeType) documentOrder with
    | some i => userOrder.length + i
    | none =>
      match List.findIdx? (fun p => matchGlob p mimeType) defaultOrder with
      | some i => userOrder.length + documentOrder.length + i
      | none => userOrder.length + documentOrder.length + defaultOrder.length

example :
    sortMimeTypes (fun p m => p == m) ["text/plain", "text/html"] [] []
      ["text/html", "text/plain"] = ["text/html", "text/plain"] := by
  simp [sortMimeTypes, List.mergeSort, getMimeTypeOrder, List.findIdx?]

example :
    sortMimeTypes (fun p m => p == m) ["a", "b"] ["b"] [] ["a", "b"]
      = ["b", "a"] := by
  simp [sortMimeTypes, List.mergeSort, getMimeTypeOrder, List.findIdx?]

theorem findIdx?_start_shift (p : α → Bool) (l : List α) :
    ∀ i : Nat, List.findIdx? p l i = (List.findIdx? p l 0).map (· + i) := by
  induction l with
  | nil => intro i; simp [List.findIdx?]
  | cons a l ih =>
    intro i
    rw [List.findIdx?_cons, List.findIdx?_cons]
    by_cases h : p a
    · simp [h]
    · rw [if_neg (by simp [h]), if_neg (by simp [h])]
      rw [ih (i + 1), ih (0 + 1)]
      cases List.findIdx? p l 0 with
      | none => simp
      | some v =>
        simp only [Option.map_some', Option.some.injEq]
        omega

theorem findIdx?_some_bounds (p : α → Bool) :
    ∀ (l : List α) (k i : Nat), List.findIdx? p l k = some i →
      k ≤ i ∧ i < k + l.length := by
  intro l
  induction l with
  | nil => intro k i h; simp [List.findIdx?] at h
  | cons a l ih =>
    intro k i h
    rw [List.findIdx?_cons] at h
    by_cases hp : p a
    · simp [hp] at h
      subst h
      simp
    · simp only [hp, if_false] at h
      have := ih (k + 1) i h
      constructor
      · omega
      · simp
        omega

/-- `getMimeTypeOrder` computes exactly the rank the spec describes. -/
theorem getMimeTypeOrder_eq_spec (matchGlob : String → String → Bool)
    (mimeType : String) (u d df : List String) :
    getMimeTypeOrder matchGlob mimeType u d df
      = getMimeTypeOrderSpec matchGlob mimeType u d df := by
  unfold getMimeTypeOrder getMimeTypeOrderSpec
  rw [findIdx?_start_shift _ d u.length,
    findIdx?_start_shift _ df (u.length + d.length)]
  cases List.findIdx? (fun p => matchGlob p mimeType) u 0 with
  | some i => rfl
  | none =>
    cases List.findIdx? (fun p => matchGlob p mimeType) d with
    | some i =>
      simp [Option.map_some']
      omega
    | none =>
      cases List.findIdx? (fun p => matchGlob p mimeType) df with
      | some i =>
        simp [Option.map_some']
        omega
      | none => rfl

theorem mimeTypeOrderLe_trans (mg : String → String → Bool)
    (u d df : List String) (a b c : String)
    (hab : decide (getMimeTypeOrder mg a u d df
        ≤ getMimeTypeOrder mg b u d df) = true)
    (hbc : decide (getMimeTypeOrder mg b u d df
        ≤ getMimeTypeOrder mg c u d df) = true) :
    decide (getMimeTypeOrder mg a u d df
        ≤ getMimeTypeOrder mg c u d df) = true := by
  simp at hab hbc ⊢
  omega

theorem mimeTypeOrderLe_total (mg : String → String → Bool)
    (u d df : List String) (a b : String) :
    (decide (getMimeTypeOrder mg a u d df ≤ getMimeTypeOrder mg b u d df)
      || decide (getMimeTypeOrder mg b u d df
          ≤ getMimeTypeOrder mg a u d df)) = true := by
  simp
  omega

/-- C4: `sortMimeTypes` ranks each mime type exactly as the spec's rank
function describes; the output is sorted by non-decreasing rank; a mime
type matched in `userOrder` always ranks strictly below one matched only in
`defaultOrder`; two unmatched mime types (rank = combined length of the
three lists) retain their original relative order; and with empty user and
document orders the output follows the default-order ranks. -/
theorem sortMimeTypes_ranking (mg : String → String → Bool)
    (mimeTypes u d df : List String) :
    (∀ m, getMimeTypeOrder mg m u d df = getMimeTypeOrderSpec mg m u d df)
    ∧ List.Pairwise
        (fun a b =>
          getMimeTypeOrder mg a u d df ≤ getMimeTypeOrder mg b u d df)
        (sortMimeTypes mg mimeTypes u d df)
    ∧ (∀ a b, (List.findIdx? (fun p => mg p a) u).isSome = true →
        List.findIdx? (fun p => mg p b) u = none →
        List.findIdx? (fun p => mg p b) d = none →
        (List.findIdx? (fun p => mg p b) df).isSome = true →
        getMimeTypeOrder mg a u d df < getMimeTypeOrder mg b u d df)
    ∧ (∀ a b,
        getMimeTypeOrder mg a u d df = u.length + d.length + df.length →
        getMimeTypeOrder mg b u d df = u.length + d.length + df.length →
        [a, b].Sublist mimeTypes →
        [a, b].Sublist (sortMimeTypes mg mimeTypes u d df))
    ∧ List.Pairwise
        (fun a b => (List.findIdx? (fun p => mg p a) df).getD df.length
          ≤ (List.findIdx? (fun p => mg p b) df).getD df.length)
        (sortMimeTypes mg mimeTypes [] [] df) := by
  refine ⟨fun m => getMimeTypeOrder_eq_spec mg m u d df, ?_, ?_, ?_, ?_⟩
  · have hp := @List.sorted_mergeSort String
      (fun a b => decide (getMimeTypeOrder mg a u d df
        ≤ getMimeTypeOrder mg b u d df))
      (mimeTypeOrderLe_trans mg u d df) (mimeTypeOrderLe_total mg u d df)
      mimeTypes
    unfold sortMimeTypes
    exact hp.imp (fun h => by simpa using h)
  · intro a b ha hbu hbd hbdf
    rw [getMimeTypeOrder_eq_spec, getMimeTypeOrder_eq_spec]
    unfold getMimeTypeOrderSpec
    cases hfa : List.findIdx? (fun p => mg p a) u with
    | none => rw [hfa] at ha; simp at ha
    | some i =>
      cases hfb : List.findIdx? (fun p => mg p b) df with
      | none => rw [hfb] at hbdf; simp at hbdf
      | some j =>
        simp only [hfa, hbu, hbd, hfb]
        have := findIdx?_some_bounds (fun p => mg p a) u 0 i hfa
        omega
  · intro a b ha hb hsub
    unfold sortMimeTypes
    exact List.pair_sublist_mergeSort
      (mimeTypeOrderLe_trans mg u d df) (mimeTypeOrderLe_total mg u d df)
      (by rw [ha, hb]; simp) hsub
  · have hg : ∀ x, getMimeTypeOrder mg x [] [] df
        = (List.findIdx? (fun p => mg p x) df).getD df.length := by
      intro x
      rw [getMimeTypeOrder_eq_spec]
      unfold getMimeTypeOrderSpec
      cases hfx : List.findIdx? (fun p => mg p x) df <;>
        simp [hfx, List.findIdx?]
    have hp := @List.sorted_mergeSort String
      (fun a b => decide (getMimeTypeOrder mg a [] [] df
        ≤ getMimeTypeOrder mg b [] [] df))
      (mimeTypeOrderLe_trans mg [] [] df) (mimeTypeOrderLe_total mg [] [] df)
      mimeTypes
    unfold sortMimeTypes
    refine hp.imp (fun h => ?_)
    rw [← hg, ← hg]
    simpa using h

/-- Concrete instantiation of `sortMimeTypes_ranking`, discharging its
embedded hypotheses: with user order `["b"]` and default order
`["a", "b"]`, the user-matched mime type `"b"` ranks strictly below the
default-only-matched `"a"`, and two unmatched mime types keep their
original relative order. -/
theorem sortMimeTypes_ranking_witness :
    getMimeTypeOrder (fun p m => p == m) "b" ["b"] [] ["a", "b"]
      < getMimeTypeOrder (fun p m => p == m) "a" ["b"] [] ["a", "b"]
    ∧ ["x", "y"].Sublist
        (sortMimeTypes (fun p m => p == m) ["x", "y"] ["b"] [] ["a", "b"]) := by
  constructor
  · exact (sortMimeTypes_ranking (fun p m => p == m) ["x", "y"] ["b"] []
      ["a", "b"]).2.2.1 "b" "a" (by decide) (by decide) (by decide) (by decide)
  · exact (sortMimeTypes_ranking (fun p m => p == m) ["x", "y"] ["b"] []
      ["a", "b"]).2.2.2.1 "x" "y" (by decide) (by decide)
      (List.Sublist.refl _)

/-- `CellOutputKind` from notebook.contribution.ts
(`Text = 1, Error = 2, Rich = 3`). -/
inductive CellOutputKind where
  | text
  | error
  | rich
deriving Repr, DecidableEq

/-- `vscode.CellDisplayOutput`: a rich output carrying a mime-type →
payload mapping.  The JavaScript object is modelled as an association list
(`ρ` is the payload type); `Object.keys(output.data)` is
`data.map Prod.fst`. -/
structure CellDisplayOutput (ρ : Type) where
  outputKind : CellOutputKind
  data : List (String × ρ)
deriving Repr, DecidableEq

/-- `IOrderedMimeType` from notebook.contribution.ts.  The optional
`rendererId?` and `output?` fields are `Option`s; `none` models an absent
property. -/
structure IOrderedMimeType where
  mimeType : String
  isResolved : Bool
  rendererId : Option Int
  output : Option String
deriving Repr, DecidableEq

/-- `ITransformedDisplayOutputDto` from notebook.contribution.ts. -/
structure ITransformedDisplayOutputDto (ρ : Type) where
  outputKind : CellOutputKind
  data : List (String × ρ)
  orderedMimeTypes : List IOrderedMimeType
  pickedMimeTypeIndex : Nat
deriving Repr, DecidableEq

/-- An `ExtHostNotebookOutputRenderer` as used by `transformMimeTypes`:
a numeric handle and a `render(document, output, mimeType)` function.
`δ` is the document type (the source passes `this` respectively
`document`; its contents are irrelevant to the transform). -/
structure NotebookRenderer (ρ δ : Type) where
  handle : Int
  render : δ → CellDisplayOutput ρ → String → String

/-- The body of the `sorted.forEach(mimeType => ...)` loop of
`transformMimeTypes` (extHostNotebook.ts): the block of candidates the
source pushes onto `orderMimeTypes` for one mime type.  When at least one
renderer matches, the first is rendered and pushed resolved, each further
one is pushed unresolved with its handle, and a core-supported mime type
additionally gets the `rendererId: -1` sentinel; with no matching renderer
only `{mimeType, isResolved: false}` is pushed. -/
def mimeTypeCandidates
    (findBestMatchedRenderer : String → List (NotebookRenderer ρ δ))
    (doc : δ) (output : CellDisplayOutput ρ) (mimeType : String) :
    List IOrderedMimeType :=
  match findBestMatchedRenderer mimeType with
  | [] =>
    [{ mimeType := mimeType, isResolved := false, rendererId := none,
       output := none }]
  | handler :: rest =>
    { mimeType := mimeType, isResolved := true,
      rendererId := some handler.handle,
      output := some (handler.render doc output mimeType) } ::
    ((rest.map fun r =>
      { mimeType := mimeType, isResolved := false,
        rendererId := some r.handle, output := none }) ++
     (if mimeTypeSupportedByCore mimeType then
        [{ mimeType := mimeType, isResolved := false,
           rendererId := some (-1), output := none }]
      else []))

/-- `ExtHostNotebookDocument.transformMimeTypes` and (textually identical
body) `ExtHostNotebookController._transformMimeTypes` from
extHostNotebook.ts.  The renderer registry (`findBestMatchedRenderer`) and
the three ordering lists are parameters; the `forEach` push loop appends
exactly one candidate block per sorted mime type. -/
def transformMimeTypes (matchGlob : String → String → Bool)
    (findBestMatchedRenderer : String → List (NotebookRenderer ρ δ))
    (userOrder documentOrder defaultOrder : List String)
    (doc : δ) (output : CellDisplayOutput ρ) :
    ITransformedDisplayOutputDto ρ :=
  let mimeTypes := output.data.map Prod.fst
  let sorted := sortMimeTypes matchGlob mimeTypes userOrder documentOrder
    defaultOrder
  { outputKind := output.outputKind
    data := output.data
    orderedMimeTypes :=
      sorted.flatMap (mimeTypeCandidates findBestMatchedRenderer doc output)
    pickedMimeTypeIndex := 0 }

example :
    (transformMimeTypes (fun _ _ => false)
      (fun _ => ([] : List (NotebookRenderer Unit Unit))) [] [] [] ()
      ⟨CellOutputKind.rich, [("text/plain", ())]⟩).orderedMimeTypes
    = [{ mimeType := "text/plain", isResolved := false, rendererId := none,
         output := none }] := by
  simp [transformMimeTypes, sortMimeTypes, mimeTypeCandidates]

theorem mimeTypeCandidates_mimeType
    (fb : String → List (NotebookRenderer ρ δ)) (doc : δ)
    (output : CellDisplayOutput ρ) (m : String) :
    ∀ c ∈ mimeTypeCandidates fb doc output m, c.mimeType = m := by
  intro c hc
  unfold mimeTypeCandidates at hc
  cases hfm : fb m with
  | nil =>
    rw [hfm] at hc
    simp at hc
    subst hc; rfl
  | cons handler rest =>
    rw [hfm] at hc
    by_cases hcore : mimeTypeSupportedByCore m = true
    · rw [if_pos hcore] at hc
      simp at hc
      rcases hc with hc | hc | hc
      · subst hc; rfl
      · obtain ⟨r, _, hc⟩ := hc; subst hc; rfl
      · subst hc; rfl
    · rw [if_neg hcore] at hc
      simp at hc
      rcases hc with hc | hc
      · subst hc; rfl
      · obtain ⟨r, _, hc⟩ := hc; subst hc; rfl

theorem filter_flatMap_single (l : List String)
    (f : String → List IOrderedMimeType)
    (hf : ∀ m' ∈ l, ∀ c ∈ f m', c.mimeType = m') (m : String)
    (hm : m ∈ l) (hnd : l.Nodup) :
    (l.flatMap f).filter (fun c => c.mimeType == m) = f m := by
  induction l with
  | nil => simp at hm
  | cons a l ih =>
    rw [List.flatMap_cons, List.filter_append]
    by_cases hma : m = a
    · subst hma
      have h1 : (f m).filter (fun c => c.mimeType == m) = f m :=
        List.filter_eq_self.mpr fun c hc => by
          simp [hf m (by simp) c hc]
      have h2 : (l.flatMap f).filter (fun c => c.mimeType == m) = [] := by
        rw [List.filter_eq_nil_iff]
        intro c hc
        obtain ⟨m', hm', hcm⟩ := List.mem_flatMap.mp hc
        have := hf m' (by simp [hm']) c hcm
        have hne : m' ≠ m := fun h => (List.nodup_cons.mp hnd).1 (h ▸ hm')
        simp [this, hne]
      rw [h1, h2, List.append_nil]
    · have hml : m ∈ l := by
        rcases List.mem_cons.mp hm with h | h
        · exact absurd h hma
        · exact h
      have h1 : (f a).filter (fun c => c.mimeType == m) = [] := by
        rw [List.filter_eq_nil_iff]
        intro c hc
        have := hf a (by simp) c hc
        simp [this]
        exact fun h => hma h.symm
      rw [h1, List.nil_append]
      exact ih (fun m' hm' => hf m' (by simp [hm'])) hml
        (List.nodup_cons.mp hnd).2

theorem sortMimeTypes_nodup (mg : String → String → Bool)
    (mimeTypes u d df : List String) (hnd : mimeTypes.Nodup) :
    (sortMimeTypes mg mimeTypes u d df).Nodup := by
  unfold sortMimeTypes
  exact (List.mergeSort_perm mimeTypes _).nodup_iff.mpr hnd

/-- C6: a sorted mime type with no matching renderer that is not
core-supported yields exactly one candidate, `{mimeType, isResolved:
false}` with no `rendererId` property. -/
theorem transformMimeTypes_noRenderer_notCore
    (mg : String → String → Bool)
    (fb : String → List (NotebookRenderer ρ δ))
    (u d df : List String) (doc : δ) (output : CellDisplayOutput ρ)
    (m : String)
    (hnd : (output.data.map Prod.fst).Nodup)
    (hm : m ∈ sortMimeTypes mg (output.data.map Prod.fst) u d df)
    (hfb : fb m = [])
    (hcore : mimeTypeSupportedByCore m = false) :
    (transformMimeTypes mg fb u d df doc output).orderedMimeTypes.filter
        (fun c => c.mimeType == m)
      = [{ mimeType := m, isResolved := false, rendererId := none,
           output := none }] := by
  unfold transformMimeTypes
  simp only
  rw [filter_flatMap_single _ _
    (fun mt _ => mimeTypeCandidates_mimeType fb doc output mt)
    m hm (sortMimeTypes_nodup mg _ u d df hnd)]
  unfold mimeTypeCandidates
  rw [hfb]

/-- Concrete instantiation of `transformMimeTypes_noRenderer_notCore`:
a non-core mime type with an empty renderer registry yields the single
bare unresolved candidate. -/
theorem transformMimeTypes_noRenderer_notCore_witness :
    (transformMimeTypes (fun _ _ => false)
        (fun _ => ([] : List (NotebookRenderer Unit Unit))) [] [] [] ()
        ⟨CellOutputKind.rich, [("x/y", ())]⟩).orderedMimeTypes.filter
        (fun c => c.mimeType == "x/y")
      = [{ mimeType := "x/y", isResolved := false, rendererId := none,
           output := none }] :=
  transformMimeTypes_noRenderer_notCore (fun _ _ => false)
    (fun _ => ([] : List (NotebookRenderer Unit Unit))) [] [] [] ()
    ⟨CellOutputKind.rich, [("x/y", ())]⟩ "x/y"
    (by simp) (by simp [sortMimeTypes]) rfl (by decide)

/-- C1 as stated fails on the code: with a core-supported mime type in the
sorted list but no matching renderer, no candidate carries the
`rendererId: -1` sentinel (the sentinel push sits inside the
`if (handlers.length)` branch). -/
theorem transformMimeTypes_coreSentinel_cex :
    mimeTypeSupportedByCore "text/plain" = true
    ∧ "text/plain" ∈ sortMimeTypes (fun _ _ => false) ["text/plain"] [] [] []
    ∧ ∀ c ∈ (transformMimeTypes (fun _ _ => false)
        (fun _ => ([] : List (NotebookRenderer Unit Unit))) [] [] [] ()
        ⟨CellOutputKind.rich, [("text/plain", ())]⟩).orderedMimeTypes,
        ¬(c.rendererId = some (-1)) := by
  refine ⟨by decide, by simp [sortMimeTypes], ?_⟩
  intro c hc
  simp [transformMimeTypes, sortMimeTypes, mimeTypeCandidates] at hc
  subst hc
  simp

/-- C1 (amended): for every mime type in the sorted list that is
core-supported and for which `findBestMatchedRenderer` returns at least one
renderer, the result contains the candidate
`{mimeType, isResolved: false, rendererId: -1}`. -/
theorem transformMimeTypes_coreSentinel
    (mg : String → String → Bool)
    (fb : String → List (NotebookRenderer ρ δ))
    (u d df : List String) (doc : δ) (output : CellDisplayOutput ρ)
    (m : String)
    (hm : m ∈ sortMimeTypes mg (output.data.map Prod.fst) u d df)
    (hfb : fb m ≠ [])
    (hcore : mimeTypeSupportedByCore m = true) :
    { mimeType := m, isResolved := false, rendererId := some (-1),
      output := none }
      ∈ (transformMimeTypes mg fb u d df doc output).orderedMimeTypes := by
  unfold transformMimeTypes
  simp only
  rw [List.mem_flatMap]
  refine ⟨m, hm, ?_⟩
  unfold mimeTypeCandidates
  cases hf : fb m with
  | nil => exact absurd hf hfb
  | cons handler rest => simp [hcore]

/-- Concrete instantiation of `transformMimeTypes_coreSentinel`: with one
matching renderer a core mime type gets the `-1` sentinel candidate. -/
theorem transformMimeTypes_coreSentinel_witness :
    { mimeType := "text/plain", isResolved := false,
      rendererId := some (-1), output := none }
      ∈ (transformMimeTypes (fun _ _ => false)
        (fun _ => [({ handle := 7, render := fun _ _ _ => "h" } :
          NotebookRenderer Unit Unit)]) [] [] [] ()
        ⟨CellOutputKind.rich, [("text/plain", ())]⟩).orderedMimeTypes :=
  transformMimeTypes_coreSentinel (fun _ _ => false)
    (fun _ => [{ handle := 7, render := fun _ _ _ => "h" }]) [] [] [] ()
    ⟨CellOutputKind.rich, [("text/plain", ())]⟩ "text/plain"
    (by simp [sortMimeTypes]) (by simp) (by decide)

/-- The candidate block for one mime type, instrumented with the handles
whose `render` function the source invokes while pushing it: the only
render call site is `handlers[0].render(...)`, executed once when the
handler list is non-empty. -/
def mimeTypeCandidatesLogged
    (findBestMatchedRenderer : String → List (NotebookRenderer ρ δ))
    (doc : δ) (output : CellDisplayOutput ρ) (mimeType : String) :
    List IOrderedMimeType × List Int :=
  match findBestMatchedRenderer mimeType with
  | [] =>
    ([{ mimeType := mimeType, isResolved := false, rendererId := none,
        output := none }], [])
  | handler :: rest =>
    ({ mimeType := mimeType, isResolved := true,
       rendererId := some handler.handle,
       output := some (handler.render doc output mimeType) } ::
     ((rest.map fun r =>
       { mimeType := mimeType, isResolved := false,
         rendererId := some r.handle, output := none }) ++
      (if mimeTypeSupportedByCore mimeType then
         [{ mimeType := mimeType, isResolved := false,
            rendererId := some (-1), output := none }]
       else [])),
     [handler.handle])

/-- `transformMimeTypes` instrumented with the render invocation log: the
same result record plus the handles of all invoked render functions in
invocation order. -/
def transformMimeTypesLogged (matchGlob : String → String → Bool)
    (findBestMatchedRenderer : String → List (NotebookRenderer ρ δ))
    (userOrder documentOrder defaultOrder : List String)
    (doc : δ) (output : CellDisplayOutput ρ) :
    ITransformedDisplayOutputDto ρ × List Int :=
  let sorted := sortMimeTypes matchGlob (output.data.map Prod.fst) userOrder
    documentOrder defaultOrder
  ({ outputKind := output.outputKind
     data := output.data
     orderedMimeTypes := sorted.flatMap fun m =>
       (mimeTypeCandidatesLogged findBestMatchedRenderer doc output m).1
     pickedMimeTypeIndex := 0 },
   sorted.flatMap fun m =>
     (mimeTypeCandidatesLogged findBestMatchedRenderer doc output m).2)

theorem mimeTypeCandidatesLogged_fst
    (fb : String → List (NotebookRenderer ρ δ)) (doc : δ)
    (output : CellDisplayOutput ρ) (m : String) :
    (mimeTypeCandidatesLogged fb doc output m).1
      = mimeTypeCandidates fb doc output m := by
  unfold mimeTypeCandidatesLogged mimeTypeCandidates
  cases fb m <;> rfl

theorem mimeTypeCandidatesLogged_snd
    (fb : String → List (NotebookRenderer ρ δ)) (doc : δ)
    (output : CellDisplayOutput ρ) (m : String) :
    (mimeTypeCandidatesLogged fb doc output m).2
      = match fb m with
        | [] => []
        | handler :: _ => [handler.handle] := by
  unfold mimeTypeCandidatesLogged
  cases fb m <;> rfl

/-- C5: for each sorted mime type with a non-empty renderer list, the
result carries one resolved candidate rendered by the first handler,
followed by one unresolved candidate per remaining handler in order (plus
the core sentinel when applicable); the render invocation log contains
exactly the first handler's handle per such mime type — the remaining
handlers' render functions are never invoked. -/
theorem transformMimeTypes_firstRendererOnly
    (mg : String → String → Bool)
    (fb : String → List (NotebookRenderer ρ δ))
    (u d df : List String) (doc : δ) (output : CellDisplayOutput ρ) :
    ((transformMimeTypesLogged mg fb u d df doc output).1
        = transformMimeTypes mg fb u d df doc output)
    ∧ ((transformMimeTypesLogged mg fb u d df doc output).2
        = (sortMimeTypes mg (output.data.map Prod.fst) u d df).filterMap
            fun m =>
              match fb m with
              | [] => none
              | handler :: _ => some handler.handle)
    ∧ (∀ m handler rest, (output.data.map Prod.fst).Nodup →
        m ∈ sortMimeTypes mg (output.data.map Prod.fst) u d df →
        fb m = handler :: rest →
        (transformMimeTypes mg fb u d df doc output).orderedMimeTypes.filter
            (fun c => c.mimeType == m)
          = { mimeType := m, isResolved := true,
              rendererId := some handler.handle,
              output := some (handler.render doc output m) } ::
            ((rest.map fun r =>
              { mimeType := m, isResolved := false,
                rendererId := some r.handle, output := none }) ++
             (if mimeTypeSupportedByCore m then
                [{ mimeType := m, isResolved := false,
                   rendererId := some (-1), output := none }]
              else []))) := by
  refine ⟨?_, ?_, ?_⟩
  · unfold transformMimeTypesLogged transformMimeTypes
    simp only [mimeTypeCandidatesLogged_fst]
  · unfold transformMimeTypesLogged
    simp only
    generalize sortMimeTypes mg (output.data.map Prod.fst) u d df = sorted
    induction sorted with
    | nil => rfl
    | cons a l ih =>
      rw [List.flatMap_cons, List.filterMap_cons,
        mimeTypeCandidatesLogged_snd fb doc output a]
      cases hfa : fb a with
      | nil =>
        simp only [hfa, List.nil_append]
        exact ih
      | cons handler rest =>
        simp only [hfa, List.singleton_append]
        rw [ih]
  · intro m handler rest hnd hm hfm
    unfold transformMimeTypes
    simp only
    rw [filter_flatMap_single _ _
      (fun mt _ => mimeTypeCandidates_mimeType fb doc output mt)
      m hm (sortMimeTypes_nodup mg _ u d df hnd)]
    unfold mimeTypeCandidates
    rw [hfm]

/-- Concrete instantiation of `transformMimeTypes_firstRendererOnly` with
two matching renderers: only the first handler's handle is logged, and the
candidate block is resolved-first followed by the unresolved alternative. -/
theorem transformMimeTypes_firstRendererOnly_witness :
    ((transformMimeTypesLogged (fun _ _ => false)
        (fun _ => [({ handle := 5, render := fun _ _ _ => "zz" } :
            NotebookRenderer Unit Unit),
          { handle := 7, render := fun _ _ _ => "ww" }]) [] [] [] ()
        ⟨CellOutputKind.rich, [("x/y", ())]⟩).2 = [5])
    ∧ ((transformMimeTypes (fun _ _ => false)
        (fun _ => [({ handle := 5, render := fun _ _ _ => "zz" } :
            NotebookRenderer Unit Unit),
          { handle := 7, render := fun _ _ _ => "ww" }]) [] [] [] ()
        ⟨CellOutputKind.rich, [("x/y", ())]⟩).orderedMimeTypes.filter
          (fun c => c.mimeType == "x/y")
        = [{ mimeType := "x/y", isResolved := true, rendererId := some 5,
             output := some "zz" },
           { mimeType := "x/y", isResolved := false, rendererId := some 7,
             output := none }]) := by
  constructor
  · rw [(transformMimeTypes_firstRendererOnly (fun _ _ => false)
      (fun _ => [({ handle := 5, render := fun _ _ _ => "zz" } :
          NotebookRenderer Unit Unit),
        { handle := 7, render := fun _ _ _ => "ww" }]) [] [] [] ()
      ⟨CellOutputKind.rich, [("x/y", ())]⟩).2.1]
    simp [sortMimeTypes]
  · rw [(transformMimeTypes_firstRendererOnly (fun _ _ => false)
      (fun _ => [({ handle := 5, render := fun _ _ _ => "zz" } :
          NotebookRenderer Unit Unit),
        { handle := 7, render := fun _ _ _ => "ww" }]) [] [] [] ()
      ⟨CellOutputKind.rich, [("x/y", ())]⟩).2.2 "x/y"
      { handle := 5, render := fun _ _ _ => "zz" }
      [{ handle := 7, render := fun _ _ _ => "ww" }]
      (by simp) (by simp [sortMimeTypes]) rfl]
    simp [mimeTypeSupportedByCore]

/-- C8: the returned record carries the input's `outputKind` and `data`
mapping unchanged, and `pickedMimeTypeIndex` is always 0. -/
theorem transformMimeTypes_frame (mg : String → String → Bool)
    (fb : String → List (NotebookRenderer ρ δ))
    (u d df : List String) (doc : δ) (output : CellDisplayOutput ρ) :
    (transformMimeTypes mg fb u d df doc output).outputKind
        = output.outputKind
    ∧ (transformMimeTypes mg fb u d df doc output).data = output.data
    ∧ (transformMimeTypes mg fb u d df doc output).pickedMimeTypeIndex = 0 :=
  ⟨rfl, rfl, rfl⟩

/-- A renderer whose `render` call may throw: the JavaScript exception is
modelled as `Except.error`. -/
structure NotebookRendererExc (ρ δ ε : Type) where
  handle : Int
  render : δ → CellDisplayOutput ρ → String → Except ε String

/-- The candidate block for one mime type when the render call may throw:
`transformMimeTypes` has no try/catch, so a thrown error is simply the
result of the block; nothing is substituted for the failed candidate. -/
def mimeTypeCandidatesExc
    (findBestMatchedRenderer : String → List (NotebookRendererExc ρ δ ε))
    (doc : δ) (output : CellDisplayOutput ρ) (mimeType : String) :
    Except ε (List IOrderedMimeType) :=
  match findBestMatchedRenderer mimeType with
  | [] =>
    Except.ok [{ mimeType := mimeType, isResolved := false,
                 rendererId := none, output := none }]
  | handler :: rest =>
    (handler.render doc output mimeType).map fun renderedOutput =>
      { mimeType := mimeType, isResolved := true,
        rendererId := some handler.handle,
        output := some renderedOutput } ::
      ((rest.map fun r =>
        { mimeType := mimeType, isResolved := false,
          rendererId := some r.handle, output := none }) ++
       (if mimeTypeSupportedByCore mimeType then
          [{ mimeType := mimeType, isResolved := false,
             rendererId := some (-1), output := none }]
        else []))

/-- The `sorted.forEach` loop when render calls may throw: the first
throwing call aborts the loop and its error is the overall result. -/
def orderedMimeTypesExc
    (findBestMatchedRenderer : String → List (NotebookRendererExc ρ δ ε))
    (doc : δ) (output : CellDisplayOutput ρ) :
    List String → Except ε (List IOrderedMimeType)
  | [] => Except.ok []
  | m :: ms =>
    match mimeTypeCandidatesExc findBestMatchedRenderer doc output m with
    | Except.error e => Except.error e
    | Except.ok block =>
      match orderedMimeTypesExc findBestMatchedRenderer doc output ms with
      | Except.error e => Except.error e
      | Except.ok rest => Except.ok (block ++ rest)

/-- `transformMimeTypes` when the external render call may throw: the
function performs no exception handling, so a thrown error propagates to
the caller unchanged and no (partial) record is produced. -/
def transformMimeTypesExc (matchGlob : String → String → Bool)
    (findBestMatchedRenderer : String → List (NotebookRendererExc ρ δ ε))
    (userOrder documentOrder defaultOrder : List String)
    (doc : δ) (output : CellDisplayOutput ρ) :
    Except ε (ITransformedDisplayOutputDto ρ) :=
  match orderedMimeTypesExc findBestMatchedRenderer doc output
      (sortMimeTypes matchGlob (output.data.map Prod.fst) userOrder
        documentOrder defaultOrder) with
  | Except.error e => Except.error e
  | Except.ok candidates =>
    Except.ok { outputKind := output.outputKind, data := output.data,
                orderedMimeTypes := candidates, pickedMimeTypeIndex := 0 }

theorem orderedMimeTypesExc_error
    (fb : String → List (NotebookRendererExc ρ δ ε)) (doc : δ)
    (output : CellDisplayOutput ρ) (e : ε) :
    ∀ (pre : List String) (m : String) (post : List String),
      (∀ m' ∈ pre, ∃ cs,
        mimeTypeCandidatesExc fb doc output m' = Except.ok cs) →
      mimeTypeCandidatesExc fb doc output m = Except.error e →
      orderedMimeTypesExc fb doc output (pre ++ m :: post)
        = Except.error e := by
  intro pre
  induction pre with
  | nil =>
    intro m post _ hm
    rw [List.nil_append, orderedMimeTypesExc, hm]
  | cons a pre ih =>
    intro m post hpre hm
    obtain ⟨cs, hcs⟩ := hpre a (by simp)
    rw [List.cons_append, orderedMimeTypesExc, hcs,
      ih m post (fun m' h => hpre m' (by simp [h])) hm]

/-- C7: `transformMimeTypes` contains no exception handling — when the
render call of the first matching handler of a sorted mime type throws
(and renders for all earlier sorted mime types succeed), the thrown error
is the overall result, unchanged: no candidate is substituted and no
partial record is returned. -/
theorem transformMimeTypesExc_propagates (mg : String → String → Bool)
    (fb : String → List (NotebookRendererExc ρ δ ε))
    (u d df : List String) (doc : δ) (output : CellDisplayOutput ρ)
    (pre : List String) (m : String) (post : List String)
    (handler : NotebookRendererExc ρ δ ε)
    (rest : List (NotebookRendererExc ρ δ ε)) (e : ε)
    (hsorted : sortMimeTypes mg (output.data.map Prod.fst) u d df
      = pre ++ m :: post)
    (hpre : ∀ m' ∈ pre, ∃ cs,
      mimeTypeCandidatesExc fb doc output m' = Except.ok cs)
    (hfm : fb m = handler :: rest)
    (hrender : handler.render doc output m = Except.error e) :
    transformMimeTypesExc mg fb u d df doc output = Except.error e := by
  have hm : mimeTypeCandidatesExc fb doc output m = Except.error e := by
    simp only [mimeTypeCandidatesExc, hfm, hrender, Except.map]
  unfold transformMimeTypesExc
  rw [hsorted, orderedMimeTypesExc_error fb doc output e pre m post hpre hm]

/-- Concrete instantiation of `transformMimeTypesExc_propagates`: a single
mime type whose only renderer throws `"boom"` makes the whole transform
return exactly that error. -/
theorem transformMimeTypesExc_propagates_witness :
    transformMimeTypesExc (fun _ _ => false)
      (fun _ => [({ handle := 3, render := fun _ _ _ => Except.error "boom" } :
        NotebookRendererExc Unit Unit String)]) [] [] [] ()
      ⟨CellOutputKind.rich, [("x/y", ())]⟩ = Except.error "boom" :=
  transformMimeTypesExc_propagates (fun _ _ => false)
    (fun _ => [{ handle := 3, render := fun _ _ _ => Except.error "boom" }])
    [] [] [] () ⟨CellOutputKind.rich, [("x/y", ())]⟩ [] "x/y" []
    { handle := 3, render := fun _ _ _ => Except.error "boom" } [] "boom"
    (by simp [sortMimeTypes]) (by simp) rfl rfl

/-- A `vscode.CellOutput` as consumed by `eventuallyUpdateCellOutputs` and
`$resolveNotebookData`: the union of stream, error, and rich display
outputs, discriminated in the source by `output.outputKind`. -/
inductive CellOutput (ρ : Type) where
  | stream (text : String)
  | error (ename evalue : String) (traceback : List String)
  | rich (display : CellDisplayOutput ρ)
deriving Repr, DecidableEq

/-- An element of the transformed output array
(`ITransformedDisplayOutputDto | IStreamOutput | IErrorOutput`): rich
outputs are replaced by their transform, the others forwarded unchanged. -/
inductive IOutput (ρ : Type) where
  | stream (text : String)
  | error (ename evalue : String) (traceback : List String)
  | transformed (dto : ITransformedDisplayOutputDto ρ)
deriving Repr, DecidableEq

/-- JavaScript `Set<number>.add` followed by `Array.from`: insertion
order, duplicates ignored. -/
def setAdd (s : List Int) (x : Int) : List Int :=
  if x ∈ s then s else s ++ [x]

/-- The `outputs.map(output => ...)` body shared verbatim by
`eventuallyUpdateCellOutputs` and `$resolveNotebookData`
(extHostNotebook.ts): rich outputs are replaced by their
`transformMimeTypes` result and the picked candidate's renderer handle is
collected into the `renderers` set.  Reading
`ret.orderedMimeTypes[ret.pickedMimeTypeIndex]` past the end of the array
gives JavaScript `undefined` and the subsequent `.isResolved` access throws
a TypeError; that crash is modelled as `none`.  (The `rendererId!`
non-null assertion is sound for resolved candidates, which always carry a
handle; the `none` renderer branch is unreachable.) -/
def transformOutputs (mg : String → String → Bool)
    (fb : String → List (NotebookRenderer ρ δ))
    (u d df : List String) (doc : δ) :
    List (CellOutput ρ) → List Int → Option (List (IOutput ρ) × List Int)
  | [], renderers => some ([], renderers)
  | output :: outputs, renderers =>
    match output with
    | CellOutput.rich display =>
      let ret := transformMimeTypes mg fb u d df doc display
      match ret.orderedMimeTypes[ret.pickedMimeTypeIndex]? with
      | none => none
      | some picked =>
        let renderers' :=
          if picked.isResolved then
            match picked.rendererId with
            | some rid => setAdd renderers rid
            | none => renderers
          else renderers
        match transformOutputs mg fb u d df doc outputs renderers' with
        | none => none
        | some (outs, rs) => some (IOutput.transformed ret :: outs, rs)
    | CellOutput.stream text =>
      match transformOutputs mg fb u d df doc outputs renderers with
      | none => none
      | some (outs, rs) => some (IOutput.stream text :: outs, rs)
    | CellOutput.error en ev tb =>
      match transformOutputs mg fb u d df doc outputs renderers with
      | none => none
      | some (outs, rs) => some (IOutput.error en ev tb :: outs, rs)

/-- `ExtHostNotebookDocument.eventuallyUpdateCellOutputs`
(extHostNotebook.ts): maps each received splice to an output splice with
the same `start` and `deleteCount` whose inserted outputs are transformed
by the shared `outputs.map` body, threading the collected renderer set;
`none` models the TypeError crash inside the loop. -/
def eventuallyUpdateCellOutputs (mg : String → String → Bool)
    (fb : String → List (NotebookRenderer ρ δ))
    (u d df : List String) (doc : δ) :
    List (Splice (CellOutput ρ)) → List Int
    → Option (List (Nat × Nat × List (IOutput ρ)) × List Int)
  | [], renderers => some ([], renderers)
  | sp :: sps, renderers =>
    match transformOutputs mg fb u d df doc sp.toInsert renderers with
    | none => none
    | some (outs, renderers') =>
      match eventuallyUpdateCellOutputs mg fb u d df doc sps renderers' with
      | none => none
      | some (dtos, rs) =>
        some ((sp.start, sp.deleteCount, outs) :: dtos, rs)

/-- The total per-output transform: rich outputs replaced by their
`transformMimeTypes` result, stream and error outputs forwarded
unchanged. -/
def transformCellOutput (mg : String → String → Bool)
    (fb : String → List (NotebookRenderer ρ δ))
    (u d df : List String) (doc : δ) : CellOutput ρ → IOutput ρ
  | CellOutput.rich display =>
    IOutput.transformed (transformMimeTypes mg fb u d df doc display)
  | CellOutput.stream text => IOutput.stream text
  | CellOutput.error en ev tb => IOutput.error en ev tb

theorem transformOutputs_map (mg : String → String → Bool)
    (fb : String → List (NotebookRenderer ρ δ))
    (u d df : List String) (doc : δ) :
    ∀ (outputs : List (CellOutput ρ)) (renderers : List Int)
      (outs : List (IOutput ρ)) (rs : List Int),
      transformOutputs mg fb u d df doc outputs renderers = some (outs, rs) →
      outs = outputs.map (transformCellOutput mg fb u d df doc) := by
  intro outputs
  induction outputs with
  | nil =>
    intro renderers outs rs h
    simp only [transformOutputs] at h
    simp at h
    simp [h.1]
  | cons output outputs ih =>
    intro renderers outs rs h
    simp only [transformOutputs] at h
    match output with
    | CellOutput.rich display =>
      simp only at h
      cases hg : (transformMimeTypes mg fb u d df doc display).orderedMimeTypes[
          (transformMimeTypes mg fb u d df doc display).pickedMimeTypeIndex]? with
      | none => rw [hg] at h; simp at h
      | some picked =>
        rw [hg] at h
        simp only at h
        cases hrec : transformOutputs mg fb u d df doc outputs
            (if picked.isResolved then
              match picked.rendererId with
              | some rid => setAdd renderers rid
              | none => renderers
            else renderers) with
        | none => rw [hrec] at h; simp at h
        | some pr =>
          rw [hrec] at h
          simp at h
          rw [List.map_cons, ← h.1]
          have := ih _ pr.1 pr.2 (by rw [hrec])
          rw [transformCellOutput]
          simp [this]
    | CellOutput.stream text =>
      simp only at h
      cases hrec : transformOutputs mg fb u d df doc outputs renderers with
      | none => rw [hrec] at h; simp at h
      | some pr =>
        rw [hrec] at h
        simp at h
        rw [List.map_cons, ← h.1]
        have := ih _ pr.1 pr.2 (by rw [hrec])
        rw [transformCellOutput]
        simp [this]
    | CellOutput.error en ev tb =>
      simp only at h
      cases hrec : transformOutputs mg fb u d df doc outputs renderers with
      | none => rw [hrec] at h; simp at h
      | some pr =>
        rw [hrec] at h
        simp at h
        rw [List.map_cons, ← h.1]
        have := ih _ pr.1 pr.2 (by rw [hrec])
        rw [transformCellOutput]
        simp [this]

/-- C10: whenever `eventuallyUpdateCellOutputs` succeeds it produces one
output splice per input splice, in order, with the same `start` and
`deleteCount`; within each splice rich outputs are replaced by their
`transformMimeTypes` result and stream/error outputs are forwarded
unchanged. -/
theorem eventuallyUpdateCellOutputs_frame (mg : String → String → Bool)
    (fb : String → List (NotebookRenderer ρ δ))
    (u d df : List String) (doc : δ) :
    ∀ (diffs : List (Splice (CellOutput ρ))) (renderers : List Int)
      (dtos : List (Nat × Nat × List (IOutput ρ))) (rs : List Int),
      eventuallyUpdateCellOutputs mg fb u d df doc diffs renderers
        = some (dtos, rs) →
      dtos = diffs.map fun sp =>
        (sp.start, sp.deleteCount,
          sp.toInsert.map (transformCellOutput mg fb u d df doc)) := by
  intro diffs
  induction diffs with
  | nil =>
    intro renderers dtos rs h
    simp only [eventuallyUpdateCellOutputs] at h
    simp at h
    simp [h.1]
  | cons sp sps ih =>
    intro renderers dtos rs h
    simp only [eventuallyUpdateCellOutputs] at h
    cases ht : transformOutputs mg fb u d df doc sp.toInsert renderers with
    | none => rw [ht] at h; simp at h
    | some pr =>
      rw [ht] at h
      simp only at h
      cases hrec : eventuallyUpdateCellOutputs mg fb u d df doc sps pr.2 with
      | none => rw [hrec] at h; simp at h
      | some pr2 =>
        rw [hrec] at h
        simp at h
        rw [List.map_cons, ← h.1]
        have h1 := transformOutputs_map mg fb u d df doc sp.toInsert
          renderers pr.1 pr.2 (by rw [ht])
        have h2 := ih pr.2 pr2.1 pr2.2 (by rw [hrec])
        simp [h1, h2]

/-- Concrete instantiation of `eventuallyUpdateCellOutputs_frame`: a
single splice carrying one stream output is forwarded with the same start
and delete count. -/
theorem eventuallyUpdateCellOutputs_frame_witness :
    [((0 : Nat), (2 : Nat), [(IOutput.stream "hi" : IOutput Unit)])]
      = [(Splice.mk 0 2 [CellOutput.stream "hi"] :
          Splice (CellOutput Unit))].map
          (fun sp => (sp.start, sp.deleteCount, sp.toInsert.map
            (transformCellOutput (fun _ _ => false) (fun _ => []) [] [] []
              ()))) :=
  eventuallyUpdateCellOutputs_frame (fun _ _ => false) (fun _ => []) [] [] []
    () [Splice.mk 0 2 [CellOutput.stream "hi"]] []
    [(0, 2, [IOutput.stream "hi"])] [] rfl

/-- C9: a rich output with an empty data mapping transforms into a record
with empty `orderedMimeTypes` yet `pickedMimeTypeIndex = 0`, so the picked
index is not a valid index; the shared `outputs.map` loop used by both
callers (`eventuallyUpdateCellOutputs` and `$resolveNotebookData`) then
dereferences the missing element `orderedMimeTypes[0]` and crashes
(modelled as `none`). -/
theorem transformMimeTypes_emptyData_unsafe (mg : String → String → Bool)
    (fb : String → List (NotebookRenderer ρ δ))
    (u d df : List String) (doc : δ) (st dc : Nat) (renderers : List Int) :
    (transformMimeTypes mg fb u d df doc
        ⟨CellOutputKind.rich, ([] : List (String × ρ))⟩).orderedMimeTypes = []
    ∧ (transformMimeTypes mg fb u d df doc
        ⟨CellOutputKind.rich, ([] : List (String × ρ))⟩).pickedMimeTypeIndex
        = 0
    ∧ ¬((transformMimeTypes mg fb u d df doc
          ⟨CellOutputKind.rich, ([] : List (String × ρ))⟩).pickedMimeTypeIndex
        < (transformMimeTypes mg fb u d df doc
          ⟨CellOutputKind.rich,
            ([] : List (String × ρ))⟩).orderedMimeTypes.length)
    ∧ transformOutputs mg fb u d df doc
        [CellOutput.rich ⟨CellOutputKind.rich, ([] : List (String × ρ))⟩]
        renderers = none
    ∧ eventuallyUpdateCellOutputs mg fb u d df doc
        [⟨st, dc,
          [CellOutput.rich ⟨CellOutputKind.rich, ([] : List (String × ρ))⟩]⟩]
        renderers = none := by
  have h1 : (transformMimeTypes mg fb u d df doc
      ⟨CellOutputKind.rich, ([] : List (String × ρ))⟩).orderedMimeTypes
      = [] := by
    simp [transformMimeTypes, sortMimeTypes]
  refine ⟨h1, rfl, ?_, ?_, ?_⟩
  · rw [h1]
    simp
  · simp [transformOutputs, h1]
  · simp [eventuallyUpdateCellOutputs, transformOutputs, h1]
